import Mathlib

/-!
# Verification of `mock.h` (zagor/dryer)

`mock.h` replaces the Arduino runtime of the dryer firmware by a command-line
simulation: four global `int`s (`mock_time`, `mock_heater`, `mock_fan`,
`mock_switch`), a sensor class `DHT`, a display class `LiquidCrystal_I2C`, and
the free functions `millis`, `delay`, `wdt_enable`, `wdt_reset`,
`digitalWrite`, `digitalRead`, `pinMode`.

Embedding:
* the globals and the text written to standard output form the record `World`;
  every function is a state transformer on `World` (a function with a result
  returns the result paired with the new `World`);
* `int` is the 32-bit two's-complement integer of the command-line host for
  which the mock is written: values are `Int`, and the two additions in the
  program (`mock_time += ...`) are reduced by `wrapInt`;
* `/` and `%` on `int` truncate toward zero: `Int.tdiv`, `Int.tmod`;
* `printf` appends the formatted characters to `World.stdout`;
* `double` and `float` are kept abstract (`FloatModel`): the program only
  converts an `int` literal to `double` and a `double` to `float`.
-/

namespace Dryer

/-! ## Machine integers -/

/-- Largest value of a 32-bit `int`. -/
def INT_MAX : Int := 2147483647

/-- Smallest value of a 32-bit `int`. -/
def INT_MIN : Int := -2147483648

/-- Reduction of a mathematical integer to the 32-bit two's-complement range
`[INT_MIN, INT_MAX]`. -/
def wrapInt (x : Int) : Int := (x - INT_MIN) % 4294967296 + INT_MIN

/-- The value is representable in an `int`. -/
def isInt (x : Int) : Prop := INT_MIN ≤ x ∧ x ≤ INT_MAX

instance (x : Int) : Decidable (isInt x) := by
  unfold isInt; exact inferInstance

/-- C truthiness of an `int` (as in `on ? "ON" : "OFF"`). -/
def truthy (x : Int) : Bool := x != 0

/-! ## `printf` conversions -/

/-- The conversion `%02d`: decimal, minimum field width 2, padded with zeros on
the left; a minus sign counts toward the width. -/
def fmt02d (n : Int) : String :=
  if n < 0 then "-" ++ Nat.repr n.natAbs
  else if n < 10 then "0" ++ Nat.repr n.natAbs
  else Nat.repr n.natAbs

/-- The two `%02d` fields of the actuator lines with the colon between them:
`mock_time / 1000 / 60` and `mock_time / 1000 % 60`. -/
def timestamp (t : Int) : String :=
  fmt02d ((t.tdiv 1000).tdiv 60) ++ ":" ++ fmt02d ((t.tdiv 1000).tmod 60)

/-- The two-character decimal rendering of a number below 100: tens digit, then
units digit. -/
def twoDigits (n : Int) : String :=
  String.mk [Nat.digitChar (n.toNat / 10), Nat.digitChar (n.toNat % 10)]

/-! ## Global state -/

/-- The four globals of `mock.h` and the characters written to standard output
so far. -/
structure World where
  mock_time : Int
  mock_heater : Int
  mock_fan : Int
  mock_switch : Int
  stdout : String
deriving DecidableEq, Repr

/-- State at program start: `mock_time = 0`, `mock_heater = 0`, `mock_fan = 0`,
`mock_switch = 1`, nothing printed. -/
def World.init : World :=
  { mock_time := 0, mock_heater := 0, mock_fan := 0, mock_switch := 1, stdout := "" }

/-! ## Free functions -/

/-- Embeds `int millis(void) { return mock_time; }` -/
def millis (w : World) : Int × World := (w.mock_time, w)

/-- Embeds `void delay(int time) { mock_time += time; }` -/
def delay (time : Int) (w : World) : World :=
  { w with mock_time := wrapInt (w.mock_time + time) }

/-- Embeds `void wdt_enable(int time) {(void)time;}` -/
def wdt_enable (_time : Int) (w : World) : World := w

/-- Embeds `void wdt_reset() {}` -/
def wdt_reset (w : World) : World := w

/-- Embeds `void digitalWrite(int pin, int on)`. -/
def digitalWrite (pin on_ : Int) (w : World) : World :=
  if pin = 3 then
    { w with
      mock_heater := on_
      stdout := w.stdout ++ "time: " ++ fmt02d ((w.mock_time.tdiv 1000).tdiv 60) ++ ":"
        ++ fmt02d ((w.mock_time.tdiv 1000).tmod 60) ++ " Heat: "
        ++ (if truthy on_ then "ON" else "OFF") ++ "\n" }
  else if pin = 4 then
    { w with
      mock_fan := on_
      stdout := w.stdout ++ "time: " ++ fmt02d ((w.mock_time.tdiv 1000).tdiv 60) ++ ":"
        ++ fmt02d ((w.mock_time.tdiv 1000).tmod 60) ++ " Fan: "
        ++ (if truthy on_ then "ON" else "OFF") ++ "\n" }
  else w

/-- Embeds `int digitalRead(int pin) { (void)pin; return mock_switch; }` -/
def digitalRead (_pin : Int) (w : World) : Int × World := (w.mock_switch, w)

/-- Embeds `void pinMode(int pin, int mode) { (void)pin; (void)mode; }` -/
def pinMode (_pin _mode : Int) (w : World) : World := w

/-! ## Class `DHT` -/

/-- The floating-point types of the program and the two conversions it performs:
`int` literal to `double` (`temp = 22`) and `double` to `float` (`return hum`). -/
structure FloatModel where
  Dbl : Type
  Flt : Type
  ofInt : Int → Dbl
  toFlt : Dbl → Flt

/-- A floating-point layer in which both types are the rationals and both
conversions are exact. -/
def FloatModel.exact : FloatModel :=
  { Dbl := ℚ, Flt := ℚ, ofInt := fun n => (n : ℚ), toFlt := fun x => x }

/-- The anonymous enumeration `enum { inside, outside }` of `DHT`. -/
inductive Location where
  | inside
  | outside
deriving DecidableEq, Repr

/-- Data members of `class DHT`. -/
structure DHT (fp : FloatModel) where
  sensor : Location
  temp : fp.Dbl
  hum : fp.Dbl

/-- Constructor `DHT(int pin, int type)`. -/
def DHT.new (fp : FloatModel) (pin _type : Int) : DHT fp :=
  { temp := fp.ofInt 22
    hum := fp.ofInt 60
    sensor := if pin = 7 then Location.inside else Location.outside }

/-- Embeds `float readHumidity() { mock_time += 250; return hum; }` -/
def DHT.readHumidity {fp : FloatModel} (d : DHT fp) (w : World) : fp.Flt × DHT fp × World :=
  (fp.toFlt d.hum, d, { w with mock_time := wrapInt (w.mock_time + 250) })

/-- Embeds `float readTemperature() { return temp; }` -/
def DHT.readTemperature {fp : FloatModel} (d : DHT fp) (w : World) : fp.Flt × DHT fp × World :=
  (fp.toFlt d.temp, d, w)

/-- Embeds `void begin() {}` -/
def DHT.begin {fp : FloatModel} (d : DHT fp) (w : World) : DHT fp × World := (d, w)

/-! ## Class `LiquidCrystal_I2C` -/

/-- The class `LiquidCrystal_I2C` has no data members. -/
structure LiquidCrystal_I2C where
deriving DecidableEq, Repr

namespace LiquidCrystal_I2C

/-- Constructor `LiquidCrystal_I2C(int, int, int) {}`. -/
def new (_a _b _c : Int) (w : World) : LiquidCrystal_I2C × World := ({}, w)

/-- Embeds `void begin() {}` -/
def begin (_l : LiquidCrystal_I2C) (w : World) : World := w

/-- Embeds `void home() {}` -/
def home (_l : LiquidCrystal_I2C) (w : World) : World := w

/-- Embeds `void backlight() {}` -/
def backlight (_l : LiquidCrystal_I2C) (w : World) : World := w

/-- Embeds `void print(const char* line) { printf("LCD: %s\n", line); }` -/
def print (_l : LiquidCrystal_I2C) (line : String) (w : World) : World :=
  { w with stdout := w.stdout ++ "LCD: " ++ line ++ "\n" }

/-- Embeds `void setCursor(int, int) {}` -/
def setCursor (_l : LiquidCrystal_I2C) (_col _row : Int) (w : World) : World := w

end LiquidCrystal_I2C

/-! ## Runs of the program

The firmware drives the simulation by a sequence of calls.  A `Sys` holds the
globals together with the `DHT` objects constructed so far; a sensor is
addressed by its position in `Sys.sensors`. -/

/-- The globals and the sensor objects that exist. -/
structure Sys (fp : FloatModel) where
  world : World
  sensors : List (DHT fp)

/-- Program start: the initial globals and no sensor object. -/
def Sys.init (fp : FloatModel) : Sys fp := { world := World.init, sensors := [] }

/-- One call of an operation exposed by `mock.h`. -/
inductive Call where
  | millis
  | delay (time : Int)
  | wdt_enable (time : Int)
  | wdt_reset
  | digitalWrite (pin on_ : Int)
  | digitalRead (pin : Int)
  | pinMode (pin mode : Int)
  | dhtNew (pin type : Int)
  | dhtReadHumidity (i : Nat)
  | dhtReadTemperature (i : Nat)
  | dhtBegin (i : Nat)
  | lcdNew (a b c : Int)
  | lcdBegin
  | lcdHome
  | lcdBacklight
  | lcdPrint (line : String)
  | lcdSetCursor (col row : Int)
deriving DecidableEq, Repr

/-- Effect of one call.  A result value is dropped; a sensor method called on a
position that holds no sensor is not a call of the program and does nothing. -/
def step {fp : FloatModel} (s : Sys fp) : Call → Sys fp
  | .millis => { s with world := (millis s.world).2 }
  | .delay time => { s with world := delay time s.world }
  | .wdt_enable time => { s with world := wdt_enable time s.world }
  | .wdt_reset => { s with world := wdt_reset s.world }
  | .digitalWrite pin on_ => { s with world := digitalWrite pin on_ s.world }
  | .digitalRead pin => { s with world := (digitalRead pin s.world).2 }
  | .pinMode pin mode => { s with world := pinMode pin mode s.world }
  | .dhtNew pin type => { s with sensors := s.sensors ++ [DHT.new fp pin type] }
  | .dhtReadHumidity i =>
    match s.sensors.get? i with
    | some d => { world := (d.readHumidity s.world).2.2
                  sensors := s.sensors.set i (d.readHumidity s.world).2.1 }
    | none => s
  | .dhtReadTemperature i =>
    match s.sensors.get? i with
    | some d => { world := (d.readTemperature s.world).2.2
                  sensors := s.sensors.set i (d.readTemperature s.world).2.1 }
    | none => s
  | .dhtBegin i =>
    match s.sensors.get? i with
    | some d => { world := (d.begin s.world).2
                  sensors := s.sensors.set i (d.begin s.world).1 }
    | none => s
  | .lcdNew a b c => { s with world := (LiquidCrystal_I2C.new a b c s.world).2 }
  | .lcdBegin => { s with world := LiquidCrystal_I2C.begin {} s.world }
  | .lcdHome => { s with world := LiquidCrystal_I2C.home {} s.world }
  | .lcdBacklight => { s with world := LiquidCrystal_I2C.backlight {} s.world }
  | .lcdPrint line => { s with world := LiquidCrystal_I2C.print {} line s.world }
  | .lcdSetCursor col row => { s with world := LiquidCrystal_I2C.setCursor {} col row s.world }

/-- Effect of a sequence of calls, first call first. -/
def run {fp : FloatModel} (s : Sys fp) : List Call → Sys fp
  | [] => s
  | c :: cs => run (step s c) cs

/-- Every `delay` in the sequence has a non-negative argument. -/
def delaysNonneg (cs : List Call) : Prop :=
  ∀ time : Int, Call.delay time ∈ cs → 0 ≤ time

/-- Milliseconds a call asks the clock to advance: the argument of `delay`, 250
for `readHumidity`, nothing for the other operations. -/
def Call.advance : Call → Int
  | .delay time => time
  | .dhtReadHumidity _ => 250
  | _ => 0

/-- Total advance asked for by a sequence of calls. -/
def totalAdvance : List Call → Int
  | [] => 0
  | c :: cs => c.advance + totalAdvance cs

/-- Number of `readHumidity` calls in a sequence of calls. -/
def humidityCalls : List Call → Nat
  | [] => 0
  | .dhtReadHumidity _ :: cs => humidityCalls cs + 1
  | _ :: cs => humidityCalls cs

/-- Sum of the arguments of the `delay` calls in a sequence of calls. -/
def delaySum : List Call → Int
  | [] => 0
  | .delay time :: cs => time + delaySum cs
  | _ :: cs => delaySum cs

/-- A call of a sensor method addresses one of the `n` sensors that exist; the
other calls need no sensor. -/
def Call.addressed (n : Nat) : Call → Prop
  | .dhtReadHumidity i => i < n
  | .dhtReadTemperature i => i < n
  | .dhtBegin i => i < n
  | _ => True

/-- Every sensor method in the sequence is called on a sensor that has been
constructed by the time of the call. -/
def sensorsExist {fp : FloatModel} (s : Sys fp) : List Call → Prop
  | [] => True
  | c :: cs => c.addressed s.sensors.length ∧ sensorsExist (step s c) cs

/-- The number denoted by a list of decimal digit characters, most significant
digit first. -/
def decimalValue (l : List Char) : Nat :=
  l.foldl (fun a c => 10 * a + (c.toNat - 48)) 0

/-! ## Decimal digits -/

theorem digitChar_ne_newline (d : Nat) (h : d < 10) : Nat.digitChar d ≠ '\n' := by
  interval_cases d <;> decide

theorem toDigitsCore_chars (fuel : Nat) : ∀ (n : Nat) (ds : List Char) (c : Char),
    c ∈ Nat.toDigitsCore 10 fuel n ds → c ∈ ds ∨ ∃ d, d < 10 ∧ c = Nat.digitChar d := by
  induction fuel with
  | zero => intro n ds c h; left; simpa [Nat.toDigitsCore] using h
  | succ f ih =>
    intro n ds c h
    simp only [Nat.toDigitsCore] at h
    split at h
    · rcases List.mem_cons.mp h with h | h
      · right; exact ⟨n % 10, Nat.mod_lt _ (by decide), h⟩
      · left; exact h
    · rcases ih _ _ _ h with h | h
      · rcases List.mem_cons.mp h with h | h
        · right; exact ⟨n % 10, Nat.mod_lt _ (by decide), h⟩
        · left; exact h
      · right; exact h

theorem repr_no_newline (n : Nat) : '\n' ∉ (Nat.repr n).data := by
  intro h
  have h' : '\n' ∈ Nat.toDigits 10 n := h
  rcases toDigitsCore_chars _ _ _ _ h' with h | ⟨d, hd, h⟩
  · simp at h
  · exact digitChar_ne_newline d hd h.symm

theorem repr_one_digit (n : Nat) (h : n < 10) :
    Nat.repr n = String.mk [Nat.digitChar n] := by
  interval_cases n <;> rfl

theorem repr_two_digits (n : Nat) (h10 : 10 ≤ n) (h : n < 100) :
    Nat.repr n = String.mk [Nat.digitChar (n / 10), Nat.digitChar (n % 10)] := by
  interval_cases n <;> rfl

theorem toDigitsCore_length_pos (f n : Nat) (ds : List Char) :
    ds.length + 1 ≤ (Nat.toDigitsCore 10 (f + 1) n ds).length := by
  induction f generalizing n ds with
  | zero =>
    simp only [Nat.toDigitsCore]
    split <;> simp
  | succ f ih =>
    rw [Nat.toDigitsCore]
    split
    · simp
    · have := ih (n / 10) (Nat.digitChar (n % 10) :: ds)
      simp at this ⊢
      omega

theorem repr_length_ge_three (n : Nat) (h : 100 ≤ n) : 3 ≤ (Nat.repr n).length := by
  show 3 ≤ (Nat.toDigits 10 n).length
  obtain ⟨k, rfl⟩ : ∃ k, n = k + 100 := ⟨n - 100, by omega⟩
  unfold Nat.toDigits
  rw [show k + 100 + 1 = (k + 98) + 1 + 1 + 1 by omega]
  rw [Nat.toDigitsCore]
  rw [if_neg (by omega)]
  rw [Nat.toDigitsCore]
  rw [if_neg (by omega)]
  have := toDigitsCore_length_pos (k + 98) ((k + 100) / 10 / 10)
    [Nat.digitChar ((k + 100) / 10 % 10), Nat.digitChar ((k + 100) % 10)]
  simpa using this

/-! ## The conversion `%02d` -/

theorem fmt02d_no_newline (n : Int) : '\n' ∉ (fmt02d n).data := by
  unfold fmt02d
  have := repr_no_newline n.natAbs
  split
  · simpa using this
  · split
    · simpa using this
    · exact this

theorem fmt02d_lt_100 (n : Int) (h0 : 0 ≤ n) (h : n < 100) : fmt02d n = twoDigits n := by
  obtain ⟨k, rfl⟩ := Int.eq_ofNat_of_zero_le h0
  have hk : k < 100 := by omega
  unfold fmt02d twoDigits
  rw [if_neg (by omega)]
  simp only [Int.natAbs_ofNat, Int.toNat_ofNat]
  by_cases h10 : k < 10
  · rw [if_pos (by omega), repr_one_digit k h10]
    interval_cases k <;> rfl
  · rw [if_neg (by omega), repr_two_digits k (by omega) hk]

theorem fmt02d_ge_100 (n : Int) (h : 100 ≤ n) :
    fmt02d n = Nat.repr n.toNat ∧ 3 ≤ (fmt02d n).length := by
  obtain ⟨k, rfl⟩ := Int.eq_ofNat_of_zero_le (by omega : 0 ≤ n)
  have hk : 100 ≤ k := by omega
  have e : fmt02d (k : Int) = Nat.repr k := by
    unfold fmt02d
    rw [if_neg (by omega), if_neg (by omega), Int.natAbs_ofNat]
  rw [e, Int.toNat_ofNat]
  exact ⟨rfl, repr_length_ge_three k hk⟩

theorem timestamp_no_newline (t : Int) : '\n' ∉ (timestamp t).data := by
  unfold timestamp
  have h1 := fmt02d_no_newline ((t.tdiv 1000).tdiv 60)
  have h2 := fmt02d_no_newline ((t.tdiv 1000).tmod 60)
  simp only [String.data_append, List.mem_append, not_or]
  exact ⟨⟨h1, by decide⟩, h2⟩

/-! ## Machine integers -/

theorem wrapInt_of_isInt (x : Int) (h : isInt x) : wrapInt x = x := by
  unfold isInt INT_MIN INT_MAX at h
  unfold wrapInt INT_MIN
  omega

theorem isInt_wrapInt (x : Int) : isInt (wrapInt x) := by
  unfold isInt wrapInt INT_MIN INT_MAX
  omega

/-! ## `digitalWrite` -/

theorem digitalWrite_heater_stdout (w : World) (level : Int) :
    (digitalWrite 3 level w).stdout =
      w.stdout ++ ("time: " ++ timestamp w.mock_time ++ " Heat: "
        ++ (if level ≠ 0 then "ON" else "OFF")) ++ "\n" := by
  by_cases h : level = 0 <;>
    simp [digitalWrite, timestamp, truthy, h, String.append_assoc]

theorem digitalWrite_fan_stdout (w : World) (level : Int) :
    (digitalWrite 4 level w).stdout =
      w.stdout ++ ("time: " ++ timestamp w.mock_time ++ " Fan: "
        ++ (if level ≠ 0 then "ON" else "OFF")) ++ "\n" := by
  by_cases h : level = 0 <;>
    simp [digitalWrite, timestamp, truthy, h, String.append_assoc]

theorem actuator_line_no_newline (t level : Int) (label : String)
    (hl : '\n' ∉ label.data) :
    '\n' ∉ ("time: " ++ timestamp t ++ label ++ (if level ≠ 0 then "ON" else "OFF")).data := by
  have ht := timestamp_no_newline t
  have h1 : '\n' ∉ ("time: " : String).data := by decide
  have h2 : '\n' ∉ (if level ≠ 0 then "ON" else "OFF" : String).data := by
    split <;> decide
  simp only [String.data_append, List.mem_append, not_or]
  exact ⟨⟨⟨h1, ht⟩, hl⟩, h2⟩

/-- C1: for every state (in particular every clock value) and every integer
level, `digitalWrite(3, level)` stores `level` in the heater flag, so the flag is
ON (non-zero) exactly when `level != 0`, and appends to standard output exactly
one line, `time: MM:SS Heat: ON` when `level != 0` and `time: MM:SS Heat: OFF`
when `level = 0`, where `MM:SS` is the timestamp of the clock value at the call;
`digitalWrite(4, level)` does the same with the fan flag and the label `Fan:`. -/
theorem digitalWrite_actuator (w : World) (level : Int) :
    ((digitalWrite 3 level w).mock_heater = level ∧
      (truthy (digitalWrite 3 level w).mock_heater = true ↔ level ≠ 0) ∧
      ∃ line : String,
        line = "time: " ++ timestamp w.mock_time ++ " Heat: "
          ++ (if level ≠ 0 then "ON" else "OFF") ∧
        '\n' ∉ line.data ∧
        (digitalWrite 3 level w).stdout = w.stdout ++ line ++ "\n") ∧
    ((digitalWrite 4 level w).mock_fan = level ∧
      (truthy (digitalWrite 4 level w).mock_fan = true ↔ level ≠ 0) ∧
      ∃ line : String,
        line = "time: " ++ timestamp w.mock_time ++ " Fan: "
          ++ (if level ≠ 0 then "ON" else "OFF") ∧
        '\n' ∉ line.data ∧
        (digitalWrite 4 level w).stdout = w.stdout ++ line ++ "\n") := by
  refine ⟨⟨by simp [digitalWrite], by simp [digitalWrite, truthy], _, rfl, ?_, ?_⟩,
    ⟨by simp [digitalWrite], by simp [digitalWrite, truthy], _, rfl, ?_, ?_⟩⟩
  · exact actuator_line_no_newline _ _ " Heat: " (by decide)
  · exact digitalWrite_heater_stdout w level
  · exact actuator_line_no_newline _ _ " Fan: " (by decide)
  · exact digitalWrite_fan_stdout w level

/-- C2 (counterexample): at the clock value 6000000 ms (100 minutes) the minutes
field has three digits: `digitalWrite(3, 1)` prints `time: 100:00 Heat: ON`, and
the timestamp `100:00` has six characters, not five. -/
theorem timestamp_minutes_three_digits :
    (0 : Int) ≤ 6000000 ∧
    timestamp 6000000 = "100:00" ∧
    (timestamp 6000000).length = 6 ∧
    (digitalWrite 3 1 { World.init with mock_time := 6000000 }).stdout
      = "time: 100:00 Heat: ON\n" ∧
    (digitalWrite 4 1 { World.init with mock_time := 6000000 }).stdout
      = "time: 100:00 Fan: ON\n" := by
  decide

/-- C2 (amended): for a non-negative clock value `ms`, the timestamp printed by
`digitalWrite` on pin 3 and on pin 4 consists of the field `MM = (ms/1000)/60`, a
colon, and the field `SS = (ms/1000) % 60`, each printed by `%02d`.  The seconds
field is always exactly two digits.  The minutes field is exactly two digits
when `ms < 6000000` (`MM < 100`); from `ms = 6000000` on it is the plain decimal
numeral of `MM`, which has at least three digits. -/
theorem timestamp_format (w : World) (level : Int) (h : 0 ≤ w.mock_time) :
    (digitalWrite 3 level w).stdout =
      w.stdout ++ ("time: " ++ (fmt02d (w.mock_time / 1000 / 60) ++ ":"
        ++ fmt02d (w.mock_time / 1000 % 60)) ++ " Heat: "
        ++ (if level ≠ 0 then "ON" else "OFF")) ++ "\n" ∧
    (digitalWrite 4 level w).stdout =
      w.stdout ++ ("time: " ++ (fmt02d (w.mock_time / 1000 / 60) ++ ":"
        ++ fmt02d (w.mock_time / 1000 % 60)) ++ " Fan: "
        ++ (if level ≠ 0 then "ON" else "OFF")) ++ "\n" ∧
    fmt02d (w.mock_time / 1000 % 60) = twoDigits (w.mock_time / 1000 % 60) ∧
    (w.mock_time < 6000000 →
      fmt02d (w.mock_time / 1000 / 60) = twoDigits (w.mock_time / 1000 / 60)) ∧
    (6000000 ≤ w.mock_time →
      fmt02d (w.mock_time / 1000 / 60) = Nat.repr (w.mock_time / 1000 / 60).toNat ∧
      3 ≤ (fmt02d (w.mock_time / 1000 / 60)).length) := by
  have ht : timestamp w.mock_time
      = fmt02d (w.mock_time / 1000 / 60) ++ ":" ++ fmt02d (w.mock_time / 1000 % 60) := by
    have h1 : w.mock_time.tdiv 1000 = w.mock_time / 1000 :=
      Int.tdiv_eq_ediv h (by decide)
    have h2 : (0 : Int) ≤ w.mock_time / 1000 := by omega
    unfold timestamp
    rw [h1, Int.tdiv_eq_ediv h2 (by decide), Int.tmod_eq_emod h2 (by decide)]
  refine ⟨?_, ?_, ?_, ?_, ?_⟩
  · rw [← ht]; exact digitalWrite_heater_stdout w level
  · rw [← ht]; exact digitalWrite_fan_stdout w level
  · exact fmt02d_lt_100 _ (by omega) (by omega)
  · intro hlt; exact fmt02d_lt_100 _ (by omega) (by omega)
  · intro hge; exact fmt02d_ge_100 _ (by omega)

/-- C2 (witness): the amended statement at the clock value 65000 ms. -/
theorem timestamp_format_witness :
    (0 : Int) ≤ ({ World.init with mock_time := 65000 } : World).mock_time ∧
    (digitalWrite 3 0 { World.init with mock_time := 65000 }).stdout =
      "" ++ ("time: " ++ (fmt02d (65000 / 1000 / 60) ++ ":"
        ++ fmt02d (65000 / 1000 % 60)) ++ " Heat: "
        ++ (if (0 : Int) ≠ 0 then "ON" else "OFF")) ++ "\n" :=
  ⟨by decide, (timestamp_format { World.init with mock_time := 65000 } 0 (by decide)).1⟩

/-- C3: for every pin other than 3 and 4 and every level, `digitalWrite` returns
the state it was given: clock, heater flag, fan flag, switch and standard output
are all unchanged, so no line is printed. -/
theorem digitalWrite_other_pin (pin level : Int) (w : World) (h3 : pin ≠ 3) (h4 : pin ≠ 4) :
    digitalWrite pin level w = w ∧
    (digitalWrite pin level w).mock_time = w.mock_time ∧
    (digitalWrite pin level w).mock_heater = w.mock_heater ∧
    (digitalWrite pin level w).mock_fan = w.mock_fan ∧
    (digitalWrite pin level w).mock_switch = w.mock_switch ∧
    (digitalWrite pin level w).stdout = w.stdout := by
  have e : digitalWrite pin level w = w := by
    unfold digitalWrite
    rw [if_neg h3, if_neg h4]
  rw [e]
  exact ⟨rfl, rfl, rfl, rfl, rfl, rfl⟩

/-- C3 (witness): `digitalWrite(5, 1)` at program start. -/
theorem digitalWrite_other_pin_witness :
    (5 : Int) ≠ 3 ∧ (5 : Int) ≠ 4 ∧ digitalWrite 5 1 World.init = World.init :=
  ⟨by decide, by decide, (digitalWrite_other_pin 5 1 World.init (by decide) (by decide)).1⟩

/-! ## The clock -/

/-- C4 (counterexample): with the clock at `INT_MAX = 2147483647`, `delay(1)`
cannot make `millis()` return the previous value plus 1: that sum, 2147483648,
is not an `int`; the 32-bit addition yields -2147483648. -/
theorem delay_overflow :
    isInt 2147483647 ∧ (0 : Int) ≤ 1 ∧ isInt 1 ∧
    (millis { World.init with mock_time := 2147483647 }).1 = 2147483647 ∧
    ¬ isInt (2147483647 + 1) ∧
    (millis (delay 1 { World.init with mock_time := 2147483647 })).1 = -2147483648 ∧
    (millis (delay 1 { World.init with mock_time := 2147483647 })).1
      ≠ (millis { World.init with mock_time := 2147483647 }).1 + 1 := by
  decide

/-- C4 (amended): for every non-negative `ms` and every starting clock value
that is an `int`, if the previous `millis()` plus `ms` does not exceed `INT_MAX`
then after `delay(ms)` `millis()` returns exactly the previous `millis()` plus
`ms`.  The other globals and standard output are unchanged. -/
theorem delay_advances (w : World) (ms : Int) (hw : isInt w.mock_time) (hms : 0 ≤ ms)
    (hfit : (millis w).1 + ms ≤ INT_MAX) :
    (millis (delay ms w)).1 = (millis w).1 + ms ∧
    delay ms w = { w with mock_time := w.mock_time + ms } := by
  have e : wrapInt (w.mock_time + ms) = w.mock_time + ms := by
    apply wrapInt_of_isInt
    unfold isInt at hw ⊢
    simp only [millis] at hfit
    omega
  simp [millis, delay, e]

/-- C4 (witness): `delay(65000)` at program start. -/
theorem delay_advances_witness :
    isInt World.init.mock_time ∧ (0 : Int) ≤ 65000 ∧
    (millis World.init).1 + 65000 ≤ INT_MAX ∧
    (millis (delay 65000 World.init)).1 = (millis World.init).1 + 65000 :=
  ⟨by decide, by decide, by decide,
    (delay_advances World.init 65000 (by decide) (by decide) (by decide)).1⟩

/-! ## Runs -/

theorem run_append {fp : FloatModel} (s : Sys fp) (cs ds : List Call) :
    run s (cs ++ ds) = run (run s cs) ds := by
  induction cs generalizing s with
  | nil => rfl
  | cons c cs ih => exact ih (step s c)

theorem totalAdvance_append (cs ds : List Call) :
    totalAdvance (cs ++ ds) = totalAdvance cs + totalAdvance ds := by
  induction cs with
  | nil => simp [totalAdvance]
  | cons c cs ih => simp [totalAdvance, ih, add_assoc]

theorem advance_nonneg (c : Call) (h : ∀ time : Int, c = Call.delay time → 0 ≤ time) :
    0 ≤ c.advance := by
  cases c <;> simp [Call.advance]
  exact h _ rfl

theorem totalAdvance_nonneg (cs : List Call) (h : delaysNonneg cs) : 0 ≤ totalAdvance cs := by
  induction cs with
  | nil => simp [totalAdvance]
  | cons c cs ih =>
    have h1 : 0 ≤ c.advance :=
      advance_nonneg c (fun t e => h t (by rw [e]; exact List.mem_cons_self _ _))
    have h2 : 0 ≤ totalAdvance cs := ih (fun t ht => h t (List.mem_cons_of_mem _ ht))
    simp only [totalAdvance]
    omega

/-- One call from a state whose clock is an `int`: if the advance the call asks
for is non-negative and fits below `INT_MAX`, the clock stays an `int`, does not
decrease, and grows by at most that advance. -/
theorem step_clock {fp : FloatModel} (s : Sys fp) (c : Call) (hs : isInt s.world.mock_time)
    (h0 : 0 ≤ c.advance) (hfit : s.world.mock_time + c.advance ≤ INT_MAX) :
    isInt (step s c).world.mock_time ∧
    s.world.mock_time ≤ (step s c).world.mock_time ∧
    (step s c).world.mock_time ≤ s.world.mock_time + c.advance := by
  have hw : ∀ x : Int, 0 ≤ x → s.world.mock_time + x ≤ INT_MAX →
      wrapInt (s.world.mock_time + x) = s.world.mock_time + x := by
    intro x hx hx'
    apply wrapInt_of_isInt
    unfold isInt at hs ⊢
    omega
  cases c with
  | delay time =>
    simp only [Call.advance] at h0 hfit
    simp only [step, delay, Call.advance, hw time h0 hfit]
    unfold isInt at hs ⊢
    omega
  | dhtReadHumidity i =>
    simp only [Call.advance] at h0 hfit
    simp only [step]
    cases hget : s.sensors.get? i with
    | none => exact ⟨hs, le_refl _, by simp only [Call.advance]; omega⟩
    | some d =>
      simp only [DHT.readHumidity, Call.advance, hw 250 h0 hfit]
      unfold isInt at hs ⊢
      omega
  | dhtReadTemperature i =>
    simp only [step]
    cases hget : s.sensors.get? i <;> simp [DHT.readTemperature, Call.advance, hs]
  | dhtBegin i =>
    simp only [step]
    cases hget : s.sensors.get? i <;> simp [DHT.begin, Call.advance, hs]
  | digitalWrite pin on_ =>
    simp only [step, digitalWrite, Call.advance]
    split
    · simp [hs]
    · split <;> simp [hs]
  | _ =>
    simp [step, millis, wdt_enable, wdt_reset, digitalRead, pinMode, LiquidCrystal_I2C.new,
      LiquidCrystal_I2C.begin, LiquidCrystal_I2C.home, LiquidCrystal_I2C.backlight,
      LiquidCrystal_I2C.print, LiquidCrystal_I2C.setCursor, Call.advance, hs]

/-- A run from a state whose clock is an `int`: if every `delay` argument is
non-negative and the total advance fits below `INT_MAX`, the clock stays an
`int`, does not decrease, and grows by at most the total advance. -/
theorem run_clock {fp : FloatModel} (cs : List Call) : ∀ (s : Sys fp),
    isInt s.world.mock_time → delaysNonneg cs →
    s.world.mock_time + totalAdvance cs ≤ INT_MAX →
    isInt (run s cs).world.mock_time ∧
    s.world.mock_time ≤ (run s cs).world.mock_time ∧
    (run s cs).world.mock_time ≤ s.world.mock_time + totalAdvance cs := by
  induction cs with
  | nil => intro s hs _ _; simp [run, totalAdvance, hs]
  | cons c cs ih =>
    intro s hs hd hfit
    have h1 : 0 ≤ c.advance :=
      advance_nonneg c (fun t e => hd t (by rw [e]; exact List.mem_cons_self _ _))
    have hd' : delaysNonneg cs := fun t ht => hd t (List.mem_cons_of_mem _ ht)
    have h2 : 0 ≤ totalAdvance cs := totalAdvance_nonneg cs hd'
    simp only [totalAdvance] at hfit
    obtain ⟨a1, a2, a3⟩ := step_clock s c hs h1 (by omega)
    obtain ⟨b1, b2, b3⟩ := ih (step s c) a1 hd' (by omega)
    simp only [run, totalAdvance]
    exact ⟨b1, by omega, by omega⟩

/-- C5 (counterexample): from program start, `delay(2147483647)` followed by
`delay(1)` (both arguments non-negative `int`s) takes `millis()` from 2147483647
to -2147483648: the clock decreases when the addition overflows. -/
theorem clock_decreases_on_overflow :
    delaysNonneg [Call.delay 2147483647, Call.delay 1] ∧
    isInt 2147483647 ∧ isInt 1 ∧
    (millis (run (Sys.init FloatModel.exact) [Call.delay 2147483647]).world).1
      = 2147483647 ∧
    (millis (run (Sys.init FloatModel.exact) [Call.delay 2147483647, Call.delay 1]).world).1
      = -2147483648 ∧
    (millis (run (Sys.init FloatModel.exact) [Call.delay 2147483647, Call.delay 1]).world).1
      < (millis (run (Sys.init FloatModel.exact) [Call.delay 2147483647]).world).1 := by
  refine ⟨?_, by decide, by decide, by decide, by decide, by decide⟩
  intro time h
  simp only [List.mem_cons, Call.delay.injEq, List.mem_singleton, List.not_mem_nil,
    or_false] at h
  omega

/-- C5 (amended): start the program and make any sequence of calls to the exposed
operations in which every `delay` argument is non-negative and the total advance
asked of the clock (the `delay` arguments plus 250 per `readHumidity`) does not
exceed `INT_MAX`, so that no addition overflows.  Then at every position of the
sequence the value of `millis()` after the call is at least its value before
the call. -/
theorem clock_monotone (fp : FloatModel) (cs : List Call) (hd : delaysNonneg cs)
    (hfit : totalAdvance cs ≤ INT_MAX) (pre : List Call) (c : Call) (post : List Call)
    (hsplit : cs = pre ++ c :: post) :
    (millis (run (Sys.init fp) pre).world).1
      ≤ (millis (run (Sys.init fp) (pre ++ [c])).world).1 := by
  subst hsplit
  have hpre : delaysNonneg pre := fun t ht => hd t (List.mem_append_left _ ht)
  have hc : 0 ≤ c.advance :=
    advance_nonneg c (fun t e => hd t (by rw [e]; simp))
  have hpost : 0 ≤ totalAdvance post :=
    totalAdvance_nonneg post
      (fun t ht => hd t (List.mem_append_right _ (List.mem_cons_of_mem _ ht)))
  have hp0 : 0 ≤ totalAdvance pre := totalAdvance_nonneg pre hpre
  rw [totalAdvance_append] at hfit
  simp only [totalAdvance] at hfit
  have hz : (Sys.init fp).world.mock_time = 0 := rfl
  have h0 : isInt (Sys.init fp).world.mock_time := by rw [hz]; decide
  obtain ⟨a1, _, a3⟩ := run_clock pre (Sys.init fp) h0 hpre (by rw [hz]; omega)
  rw [hz] at a3
  obtain ⟨_, b2, _⟩ := step_clock (run (Sys.init fp) pre) c a1 hc (by omega)
  rw [run_append]
  exact b2

/-- C5 (witness): the call after `delay(65000)` in a short run that constructs a
sensor and reads its humidity. -/
theorem clock_monotone_witness :
    delaysNonneg [Call.digitalWrite 3 1, Call.delay 65000, Call.dhtNew 7 1,
      Call.dhtReadHumidity 0, Call.digitalWrite 3 0] ∧
    totalAdvance [Call.digitalWrite 3 1, Call.delay 65000, Call.dhtNew 7 1,
      Call.dhtReadHumidity 0, Call.digitalWrite 3 0] ≤ INT_MAX ∧
    (millis (run (Sys.init FloatModel.exact)
        [Call.digitalWrite 3 1, Call.delay 65000, Call.dhtNew 7 1]).world).1
      ≤ (millis (run (Sys.init FloatModel.exact)
        ([Call.digitalWrite 3 1, Call.delay 65000, Call.dhtNew 7 1]
          ++ [Call.dhtReadHumidity 0])).world).1 :=
  have hd : delaysNonneg [Call.digitalWrite 3 1, Call.delay 65000, Call.dhtNew 7 1,
      Call.dhtReadHumidity 0, Call.digitalWrite 3 0] := by
    intro time h
    simp at h
    omega
  ⟨hd, by decide,
    clock_monotone FloatModel.exact _ hd (by decide)
      [Call.digitalWrite 3 1, Call.delay 65000, Call.dhtNew 7 1] (Call.dhtReadHumidity 0)
      [Call.digitalWrite 3 0] rfl⟩

/-! ## Sensor reads -/

/-- C6 (counterexample): with the clock at `INT_MAX = 2147483647`,
`readHumidity()` cannot increase `millis()` by 250: the sum is not an `int`, and
the 32-bit addition leaves the clock at -2147483399. -/
theorem readHumidity_overflow :
    isInt ({ World.init with mock_time := 2147483647 } : World).mock_time ∧
    ¬ isInt (2147483647 + 250) ∧
    (millis ((DHT.new FloatModel.exact 7 1).readHumidity
      { World.init with mock_time := 2147483647 }).2.2).1 = -2147483399 ∧
    (millis ((DHT.new FloatModel.exact 7 1).readHumidity
      { World.init with mock_time := 2147483647 }).2.2).1
      ≠ (millis { World.init with mock_time := 2147483647 }).1 + 250 := by
  decide

/-- C6 (amended): for every sensor and every state, `readHumidity()` returns the
sensor's humidity (the `double` field converted to `float`) and
`readTemperature()` returns the sensor's temperature and leaves `millis()` and
the whole state unchanged; neither call changes the heater flag, the fan flag,
the switch or the sensor's own fields, and neither writes to standard output.
When the clock is an `int` not above `INT_MAX - 250`, `readHumidity()` increases
`millis()` by exactly 250. -/
theorem sensor_reads {fp : FloatModel} (d : DHT fp) (w : World) :
    ((d.readHumidity w).1 = fp.toFlt d.hum ∧
      (d.readHumidity w).2.1 = d ∧
      (d.readHumidity w).2.2.mock_heater = w.mock_heater ∧
      (d.readHumidity w).2.2.mock_fan = w.mock_fan ∧
      (d.readHumidity w).2.2.mock_switch = w.mock_switch ∧
      (d.readHumidity w).2.2.stdout = w.stdout) ∧
    ((d.readTemperature w).1 = fp.toFlt d.temp ∧
      (millis (d.readTemperature w).2.2).1 = (millis w).1 ∧
      (d.readTemperature w).2.1 = d ∧
      (d.readTemperature w).2.2 = w ∧
      (d.readTemperature w).2.2.mock_heater = w.mock_heater ∧
      (d.readTemperature w).2.2.mock_fan = w.mock_fan ∧
      (d.readTemperature w).2.2.mock_switch = w.mock_switch ∧
      (d.readTemperature w).2.2.stdout = w.stdout) ∧
    (isInt w.mock_time → w.mock_time + 250 ≤ INT_MAX →
      (millis (d.readHumidity w).2.2).1 = (millis w).1 + 250) := by
  refine ⟨⟨rfl, rfl, rfl, rfl, rfl, rfl⟩, ⟨rfl, rfl, rfl, rfl, rfl, rfl, rfl, rfl⟩, ?_⟩
  intro hw hfit
  have e : wrapInt (w.mock_time + 250) = w.mock_time + 250 := by
    apply wrapInt_of_isInt
    unfold isInt at hw ⊢
    omega
  simp [DHT.readHumidity, millis, e]

/-- C6 (witness): a sensor at pin 7 read at program start. -/
theorem sensor_reads_witness :
    isInt World.init.mock_time ∧ World.init.mock_time + 250 ≤ INT_MAX ∧
    (millis ((DHT.new FloatModel.exact 7 1).readHumidity World.init).2.2).1
      = (millis World.init).1 + 250 :=
  ⟨by decide, by decide,
    (sensor_reads (DHT.new FloatModel.exact 7 1) World.init).2.2 (by decide) (by decide)⟩

/-! ## Scenarios -/

/-- C7: from program start (`millis() = 0`), `digitalWrite(3, 1)` prints the line
`time: 00:00 Heat: ON` and leaves the heater ON; then `delay(65000)` makes
`millis() = 65000`; then `digitalWrite(3, 0)` prints the line
`time: 01:05 Heat: OFF` and leaves the heater OFF; standard output consists of
exactly those two lines in that order. -/
theorem heater_scenario :
    (millis World.init).1 = 0 ∧
    (digitalWrite 3 1 World.init).stdout = "time: 00:00 Heat: ON\n" ∧
    truthy (digitalWrite 3 1 World.init).mock_heater = true ∧
    (millis (delay 65000 (digitalWrite 3 1 World.init))).1 = 65000 ∧
    (digitalWrite 3 0 (delay 65000 (digitalWrite 3 1 World.init))).stdout
      = (delay 65000 (digitalWrite 3 1 World.init)).stdout ++ "time: 01:05 Heat: OFF\n" ∧
    truthy (digitalWrite 3 0 (delay 65000 (digitalWrite 3 1 World.init))).mock_heater
      = false ∧
    (digitalWrite 3 0 (delay 65000 (digitalWrite 3 1 World.init))).stdout
      = "time: 00:00 Heat: ON\ntime: 01:05 Heat: OFF\n" ∧
    (run (Sys.init FloatModel.exact)
      [Call.digitalWrite 3 1, Call.delay 65000, Call.digitalWrite 3 0]).world
      = { mock_time := 65000, mock_heater := 0, mock_fan := 0, mock_switch := 1,
          stdout := "time: 00:00 Heat: ON\ntime: 01:05 Heat: OFF\n" } := by
  decide

/-! ## Sensor location and the switch along runs -/

/-- One call leaves the location of every existing sensor as it was. -/
theorem step_sensor_location {fp : FloatModel} (s : Sys fp) (c : Call) (i : Nat)
    (loc : Location) (h : (s.sensors.get? i).map DHT.sensor = some loc) :
    ((step s c).sensors.get? i).map DHT.sensor = some loc := by
  have hset : ∀ (j : Nat) (d : DHT fp), s.sensors.get? j = some d →
      ((s.sensors.set j d).get? i).map DHT.sensor = some loc := by
    intro j d hj
    by_cases hji : j = i
    · subst hji
      rw [hj] at h
      simp only [List.get?_eq_getElem?] at hj ⊢
      obtain ⟨hlt, _⟩ := List.getElem?_eq_some_iff.mp hj
      rw [List.getElem?_set_self hlt]
      exact h
    · simp only [List.get?_eq_getElem?] at h ⊢
      rw [List.getElem?_set_ne hji]
      exact h
  cases c with
  | dhtNew pin type =>
    have hlt : i < s.sensors.length := by
      by_contra hge
      rw [List.get?_eq_none.mpr (by omega)] at h
      simp at h
    simp only [step]
    simp only [List.get?_eq_getElem?] at h ⊢
    rw [List.getElem?_append_left hlt]
    exact h
  | dhtReadHumidity j =>
    simp only [step]
    cases hget : s.sensors.get? j with
    | none => exact h
    | some d => exact hset j d hget
  | dhtReadTemperature j =>
    simp only [step]
    cases hget : s.sensors.get? j with
    | none => exact h
    | some d => exact hset j d hget
  | dhtBegin j =>
    simp only [step]
    cases hget : s.sensors.get? j with
    | none => exact h
    | some d => exact hset j d hget
  | _ => exact h

theorem run_sensor_location {fp : FloatModel} (cs : List Call) : ∀ (s : Sys fp) (i : Nat)
    (loc : Location), (s.sensors.get? i).map DHT.sensor = some loc →
    ((run s cs).sensors.get? i).map DHT.sensor = some loc := by
  induction cs with
  | nil => intro s i loc h; exact h
  | cons c cs ih => intro s i loc h; exact ih (step s c) i loc (step_sensor_location s c i loc h)

/-- One call leaves `mock_switch` as it was. -/
theorem step_switch {fp : FloatModel} (s : Sys fp) (c : Call) :
    (step s c).world.mock_switch = s.world.mock_switch := by
  cases c with
  | dhtReadHumidity j =>
    simp only [step]
    cases s.sensors.get? j <;> rfl
  | dhtReadTemperature j =>
    simp only [step]
    cases s.sensors.get? j <;> rfl
  | dhtBegin j =>
    simp only [step]
    cases s.sensors.get? j <;> rfl
  | digitalWrite pin on_ =>
    simp only [step, digitalWrite]
    split
    · rfl
    · split <;> rfl
  | _ => rfl

theorem run_switch {fp : FloatModel} (cs : List Call) : ∀ (s : Sys fp),
    (run s cs).world.mock_switch = s.world.mock_switch := by
  induction cs with
  | nil => intro s; rfl
  | cons c cs ih => intro s; exact (ih (step s c)).trans (step_switch s c)

/-- C8: for every pin and every type argument, the sensor built by
`DHT(pin, type)` has location `inside` exactly when `pin = 7` and `outside`
otherwise, whatever `type` is; `readHumidity`, `readTemperature` and `begin`
return the sensor with the same location; and after constructing the sensor in
any state of the program, every sequence of calls to the exposed operations
leaves that sensor with that location. -/
theorem sensor_location_fixed (fp : FloatModel) (pin type : Int) :
    ((DHT.new fp pin type).sensor = Location.inside ↔ pin = 7) ∧
    ((DHT.new fp pin type).sensor = Location.outside ↔ pin ≠ 7) ∧
    (∀ type2 : Int, (DHT.new fp pin type2).sensor = (DHT.new fp pin type).sensor) ∧
    (∀ (d : DHT fp) (w : World),
      (d.readHumidity w).2.1.sensor = d.sensor ∧
      (d.readTemperature w).2.1.sensor = d.sensor ∧
      (d.begin w).1.sensor = d.sensor) ∧
    (∀ (s : Sys fp) (cs : List Call),
      ((run (step s (Call.dhtNew pin type)) cs).sensors.get? s.sensors.length).map DHT.sensor
        = some (if pin = 7 then Location.inside else Location.outside)) := by
  refine ⟨?_, ?_, fun _ => rfl, fun _ _ => ⟨rfl, rfl, rfl⟩, ?_⟩
  · by_cases h : pin = 7 <;> simp [DHT.new, h]
  · by_cases h : pin = 7 <;> simp [DHT.new, h]
  · intro s cs
    apply run_sensor_location
    simp [step, DHT.new]

/-- C9: for every pin argument and every state, `digitalRead(pin)` returns the
current switch value and returns the state unchanged; no exposed operation
changes the switch, so in every state reached from program start by any sequence
of calls the switch is 1 and `digitalRead` returns 1, whatever the pin. -/
theorem switch_fixed (fp : FloatModel) (pin : Int) (w : World) (cs : List Call) :
    (digitalRead pin w).1 = w.mock_switch ∧
    (digitalRead pin w).2 = w ∧
    (∀ (s : Sys fp) (c : Call), (step s c).world.mock_switch = s.world.mock_switch) ∧
    (run (Sys.init fp) cs).world.mock_switch = 1 ∧
    (digitalRead pin (run (Sys.init fp) cs).world).1 = 1 := by
  refine ⟨rfl, rfl, step_switch, run_switch cs (Sys.init fp), ?_⟩
  exact run_switch cs (Sys.init fp)

/-- C10 (counterexample): after `delay(2147483647)` from program start, a sensor
freshly constructed at pin 7 cannot make `millis()` 250 larger by
`readHumidity()`: the sum is not an `int`, and the 32-bit addition leaves the
clock at -2147483399. -/
theorem fresh_sensor_overflow :
    (millis (delay 2147483647 World.init)).1 = 2147483647 ∧
    ¬ isInt ((millis (delay 2147483647 World.init)).1 + 250) ∧
    (millis ((DHT.new FloatModel.exact 7 1).readHumidity
      (delay 2147483647 World.init)).2.2).1 = -2147483399 ∧
    (millis ((DHT.new FloatModel.exact 7 1).readHumidity
      (delay 2147483647 World.init)).2.2).1
      ≠ (millis (delay 2147483647 World.init)).1 + 250 ∧
    (millis (run (Sys.init FloatModel.exact)
      [Call.delay 2147483647, Call.dhtNew 7 1, Call.dhtReadHumidity 0]).world).1
      = -2147483399 := by
  decide

/-- C10 (amended): a sensor freshly constructed with any pin and any type (in
particular pin 7) holds the defaults 22 and 60: in every state
`readTemperature()` returns 22 (as `float`) with `millis()` unchanged and
`readHumidity()` returns 60 (as `float`); when the clock is an `int` not above
`INT_MAX - 250`, as at program start, `millis()` is 250 larger after
`readHumidity()`. -/
theorem sensor_defaults (fp : FloatModel) (pin type : Int) (w : World) :
    ((DHT.new fp pin type).readTemperature w).1 = fp.toFlt (fp.ofInt 22) ∧
    (millis ((DHT.new fp pin type).readTemperature w).2.2).1 = (millis w).1 ∧
    ((DHT.new fp pin type).readHumidity w).1 = fp.toFlt (fp.ofInt 60) ∧
    (isInt w.mock_time → w.mock_time + 250 ≤ INT_MAX →
      (millis ((DHT.new fp pin type).readHumidity w).2.2).1 = (millis w).1 + 250) := by
  refine ⟨rfl, rfl, rfl, ?_⟩
  intro hw hfit
  have e : wrapInt (w.mock_time + 250) = w.mock_time + 250 := by
    apply wrapInt_of_isInt
    unfold isInt at hw ⊢
    omega
  simp [DHT.readHumidity, millis, e]

/-- C10 (witness): a sensor at pin 7 at program start; with exact conversions the
readings are the rationals 22 and 60 and the clock goes from 0 to 250. -/
theorem sensor_defaults_witness :
    isInt World.init.mock_time ∧ World.init.mock_time + 250 ≤ INT_MAX ∧
    ((DHT.new FloatModel.exact 7 1).readTemperature World.init).1 = (22 : ℚ) ∧
    (millis ((DHT.new FloatModel.exact 7 1).readTemperature World.init).2.2).1 = 0 ∧
    ((DHT.new FloatModel.exact 7 1).readHumidity World.init).1 = (60 : ℚ) ∧
    (millis ((DHT.new FloatModel.exact 7 1).readHumidity World.init).2.2).1 = 250 := by
  have h := sensor_defaults FloatModel.exact 7 1 World.init
  refine ⟨by decide, by decide, ?_, ?_, ?_, ?_⟩
  · rw [h.1]; simp [FloatModel.exact]
  · rw [h.2.1]; rfl
  · rw [h.2.2.1]; simp [FloatModel.exact]
  · rw [h.2.2.2 (by decide) (by decide)]; rfl

/-! ## The display and the operations without effect -/

/-- C11 (counterexample): `print("a\nb")` at program start writes `LCD: a`, a
newline, `b`, a newline: two output lines, not one. -/
theorem print_two_lines :
    (LiquidCrystal_I2C.print {} "a\nb" World.init).stdout = "LCD: a\nb\n" ∧
    (LiquidCrystal_I2C.print {} "a\nb" World.init).stdout.data.count '\n' = 2 ∧
    '\n' ∈ ("LCD: " ++ "a\nb" : String).data := by
  decide

/-- C11 (amended): for every text, `print(text)` appends to standard output the
characters `LCD: `, then the text verbatim, then one newline, and changes neither
the clock nor the heater flag, the fan flag or the switch.  The appended line
`LCD: ` followed by the text is free of newlines, so that the output is exactly
one line, precisely when the text contains no newline; the number of newlines
appended is one more than the number of newlines in the text. -/
theorem print_appends (l : LiquidCrystal_I2C) (text : String) (w : World) :
    (l.print text w).stdout = w.stdout ++ ("LCD: " ++ text) ++ "\n" ∧
    (l.print text w).mock_time = w.mock_time ∧
    (l.print text w).mock_heater = w.mock_heater ∧
    (l.print text w).mock_fan = w.mock_fan ∧
    (l.print text w).mock_switch = w.mock_switch ∧
    (("LCD: " ++ text) ++ "\n" : String).data.count '\n' = text.data.count '\n' + 1 ∧
    ('\n' ∉ ("LCD: " ++ text : String).data ↔ '\n' ∉ text.data) := by
  refine ⟨?_, rfl, rfl, rfl, rfl, ?_, ?_⟩
  · simp [LiquidCrystal_I2C.print, String.append_assoc]
  · simp only [String.data_append, List.count_append]
    have h1 : List.count '\n' ['L', 'C', 'D', ':', ' '] = 0 := by decide
    have h2 : List.count '\n' ['\n'] = 1 := by decide
    omega
  · simp only [String.data_append, List.mem_append, not_or]
    have h1 : '\n' ∉ ("LCD: " : String).data := by decide
    exact ⟨fun h => h.2, fun h => ⟨h1, h⟩⟩

theorem set_get_same {α : Type} (l : List α) (i : Nat) (d : α) (h : l.get? i = some d) :
    l.set i d = l := by
  simp only [List.get?_eq_getElem?] at h
  apply List.ext_getElem?
  intro j
  by_cases hij : i = j
  · subst hij
    obtain ⟨hlt, _⟩ := List.getElem?_eq_some_iff.mp h
    rw [List.getElem?_set_self hlt, h]
  · rw [List.getElem?_set_ne hij]

/-- C12: for every argument and every state, `pinMode`, `wdt_enable`,
`wdt_reset`, `DHT::begin` and the display's `begin`, `home`, `backlight` and
`setCursor` return the state they were given (clock, heater flag, fan flag,
switch and standard output), `DHT::begin` returns the sensor unchanged, and as
calls of a run each of them leaves the globals and every sensor as they were. -/
theorem noop_operations (fp : FloatModel) (pin mode time col row a b c : Int) (i : Nat)
    (d : DHT fp) (l : LiquidCrystal_I2C) (w : World) (s : Sys fp) :
    (pinMode pin mode w = w ∧
      wdt_enable time w = w ∧
      wdt_reset w = w ∧
      d.begin w = (d, w) ∧
      l.begin w = w ∧
      l.home w = w ∧
      l.backlight w = w ∧
      l.setCursor col row w = w ∧
      (LiquidCrystal_I2C.new a b c w).2 = w) ∧
    (step s (Call.pinMode pin mode) = s ∧
      step s (Call.wdt_enable time) = s ∧
      step s Call.wdt_reset = s ∧
      step s (Call.dhtBegin i) = s ∧
      step s Call.lcdBegin = s ∧
      step s Call.lcdHome = s ∧
      step s Call.lcdBacklight = s ∧
      step s (Call.lcdSetCursor col row) = s ∧
      step s (Call.lcdNew a b c) = s) := by
  refine ⟨⟨rfl, rfl, rfl, rfl, rfl, rfl, rfl, rfl, rfl⟩,
    ⟨rfl, rfl, rfl, ?_, rfl, rfl, rfl, rfl, rfl⟩⟩
  simp only [step]
  cases hget : s.sensors.get? i with
  | none => rfl
  | some d0 =>
    simp only [DHT.begin]
    rw [set_get_same s.sensors i d0 hget]

/-! ## Frame of the clock and of the actuator flags -/

/-- C13: the clock is changed only by `delay` and `readHumidity`.  A call of any
other operation in a run leaves `millis()` as it was, and so do the operations
themselves in every state: `millis`, `readTemperature`, `DHT::begin`,
`digitalWrite` for any pin and level, `digitalRead`, `pinMode`, `wdt_enable`,
`wdt_reset`, and the display's constructor, `begin`, `home`, `backlight`, `print`
and `setCursor`; constructing a sensor does not touch the globals at all. -/
theorem clock_frame (fp : FloatModel) (s : Sys fp) (c : Call)
    (hd : ∀ time : Int, c ≠ Call.delay time) (hh : ∀ i : Nat, c ≠ Call.dhtReadHumidity i) :
    (millis (step s c).world).1 = (millis s.world).1 ∧
    (∀ (w : World) (d : DHT fp) (l : LiquidCrystal_I2C) (pin level mode time col row a b e : Int)
        (text : String),
      (millis (millis w).2).1 = (millis w).1 ∧
      (millis (d.readTemperature w).2.2).1 = (millis w).1 ∧
      (millis (d.begin w).2).1 = (millis w).1 ∧
      (millis (digitalWrite pin level w)).1 = (millis w).1 ∧
      (millis (digitalRead pin w).2).1 = (millis w).1 ∧
      (millis (pinMode pin mode w)).1 = (millis w).1 ∧
      (millis (wdt_enable time w)).1 = (millis w).1 ∧
      (millis (wdt_reset w)).1 = (millis w).1 ∧
      (millis (LiquidCrystal_I2C.new a b e w).2).1 = (millis w).1 ∧
      (millis (l.begin w)).1 = (millis w).1 ∧
      (millis (l.home w)).1 = (millis w).1 ∧
      (millis (l.backlight w)).1 = (millis w).1 ∧
      (millis (l.print text w)).1 = (millis w).1 ∧
      (millis (l.setCursor col row w)).1 = (millis w).1) := by
  have hdw : ∀ (pin level : Int) (w : World),
      (digitalWrite pin level w).mock_time = w.mock_time := by
    intro pin level w
    unfold digitalWrite
    split
    · rfl
    · split <;> rfl
  refine ⟨?_, fun w d l pin level mode time col row a b e text =>
    ⟨rfl, rfl, rfl, hdw pin level w, rfl, rfl, rfl, rfl, rfl, rfl, rfl, rfl, rfl, rfl⟩⟩
  cases c with
  | delay time => exact absurd rfl (hd time)
  | dhtReadHumidity i => exact absurd rfl (hh i)
  | dhtReadTemperature i =>
    simp only [step]
    cases s.sensors.get? i <;> rfl
  | dhtBegin i =>
    simp only [step]
    cases s.sensors.get? i <;> rfl
  | digitalWrite pin on_ => exact hdw pin on_ s.world
  | _ => rfl

/-- C13 (witness): `digitalWrite(3, 1)` at program start leaves `millis()` at 0. -/
theorem clock_frame_witness :
    (∀ time : Int, Call.digitalWrite 3 1 ≠ Call.delay time) ∧
    (∀ i : Nat, Call.digitalWrite 3 1 ≠ Call.dhtReadHumidity i) ∧
    (millis (step (Sys.init FloatModel.exact) (Call.digitalWrite 3 1)).world).1
      = (millis (Sys.init FloatModel.exact).world).1 :=
  ⟨fun _ h => Call.noConfusion h, fun _ h => Call.noConfusion h,
    (clock_frame FloatModel.exact (Sys.init FloatModel.exact) (Call.digitalWrite 3 1)
      (fun _ h => Call.noConfusion h) (fun _ h => Call.noConfusion h)).1⟩

/-- C14: for every level, `digitalWrite(3, level)` leaves the fan flag, the clock
and the switch unchanged, and `digitalWrite(4, level)` leaves the heater flag,
the clock and the switch unchanged; a heater write and a fan write performed in
either order end with the same heater flag, fan flag, clock and switch. -/
theorem actuators_independent (w : World) (level a b : Int) :
    ((digitalWrite 3 level w).mock_fan = w.mock_fan ∧
      (digitalWrite 3 level w).mock_time = w.mock_time ∧
      (digitalWrite 3 level w).mock_switch = w.mock_switch) ∧
    ((digitalWrite 4 level w).mock_heater = w.mock_heater ∧
      (digitalWrite 4 level w).mock_time = w.mock_time ∧
      (digitalWrite 4 level w).mock_switch = w.mock_switch) ∧
    ((digitalWrite 4 b (digitalWrite 3 a w)).mock_heater
        = (digitalWrite 3 a (digitalWrite 4 b w)).mock_heater ∧
      (digitalWrite 4 b (digitalWrite 3 a w)).mock_fan
        = (digitalWrite 3 a (digitalWrite 4 b w)).mock_fan ∧
      (digitalWrite 4 b (digitalWrite 3 a w)).mock_heater = a ∧
      (digitalWrite 4 b (digitalWrite 3 a w)).mock_fan = b ∧
      (digitalWrite 4 b (digitalWrite 3 a w)).mock_time
        = (digitalWrite 3 a (digitalWrite 4 b w)).mock_time ∧
      (digitalWrite 4 b (digitalWrite 3 a w)).mock_switch
        = (digitalWrite 3 a (digitalWrite 4 b w)).mock_switch) := by
  simp [digitalWrite]

/-- C15: in the initial state, before any call, `millis()` returns 0 and the
heater flag and the fan flag are both OFF (zero); the same holds for the state of
a run with no call. -/
theorem initial_state (fp : FloatModel) :
    (millis World.init).1 = 0 ∧
    World.init.mock_heater = 0 ∧
    World.init.mock_fan = 0 ∧
    truthy World.init.mock_heater = false ∧
    truthy World.init.mock_fan = false ∧
    (run (Sys.init fp) []).world = World.init ∧
    (millis (run (Sys.init fp) []).world).1 = 0 := by
  refine ⟨rfl, rfl, rfl, by decide, by decide, rfl, rfl⟩

/-! ## Reading a timestamp back -/

theorem toDigitsCore_append (fuel : Nat) : ∀ (n : Nat) (ds : List Char),
    Nat.toDigitsCore 10 fuel n ds = Nat.toDigitsCore 10 fuel n [] ++ ds := by
  induction fuel with
  | zero => intro n ds; simp [Nat.toDigitsCore]
  | succ f ih =>
    intro n ds
    simp only [Nat.toDigitsCore]
    split
    · simp
    · rw [ih (n / 10) (Nat.digitChar (n % 10) :: ds), ih (n / 10) [Nat.digitChar (n % 10)]]
      simp

theorem digitChar_value (d : Nat) (h : d < 10) : (Nat.digitChar d).toNat - 48 = d := by
  interval_cases d <;> rfl

theorem decimalValue_snoc (l : List Char) (c : Char) :
    decimalValue (l ++ [c]) = 10 * decimalValue l + (c.toNat - 48) := by
  simp [decimalValue, List.foldl_append]

theorem decimalValue_toDigitsCore (fuel : Nat) : ∀ n : Nat, n < fuel →
    decimalValue (Nat.toDigitsCore 10 fuel n []) = n := by
  induction fuel with
  | zero => intro n h; omega
  | succ f ih =>
    intro n h
    simp only [Nat.toDigitsCore]
    split
    · rename_i h0
      have hn : n % 10 = n := Nat.mod_eq_of_lt (by omega)
      rw [hn]
      simp only [decimalValue, List.foldl_cons, List.foldl_nil]
      rw [digitChar_value n (by omega)]
      omega
    · rename_i h0
      rw [toDigitsCore_append f (n / 10) [Nat.digitChar (n % 10)], decimalValue_snoc,
        ih (n / 10) (by omega), digitChar_value (n % 10) (Nat.mod_lt _ (by decide))]
      omega

theorem decimalValue_repr (n : Nat) : decimalValue (Nat.repr n).data = n :=
  decimalValue_toDigitsCore (n + 1) n (Nat.lt_succ_self n)

theorem decimalValue_zero_cons (l : List Char) : decimalValue ('0' :: l) = decimalValue l := by
  simp only [decimalValue, List.foldl_cons]
  rfl

theorem decimalValue_fmt02d (n : Int) (h : 0 ≤ n) : decimalValue (fmt02d n).data = n.toNat := by
  obtain ⟨k, rfl⟩ := Int.eq_ofNat_of_zero_le h
  unfold fmt02d
  rw [if_neg (by omega)]
  simp only [Int.natAbs_ofNat, Int.toNat_ofNat]
  split
  · rw [String.data_append]
    exact (decimalValue_zero_cons _).trans (decimalValue_repr k)
  · exact decimalValue_repr k

theorem fmt02d_injective (m n : Int) (hm : 0 ≤ m) (hn : 0 ≤ n) (h : fmt02d m = fmt02d n) :
    m = n := by
  have h1 := decimalValue_fmt02d m hm
  have h2 := decimalValue_fmt02d n hn
  rw [h] at h1
  have : m.toNat = n.toNat := h1.symm.trans h2
  omega

/-- Two timestamps with non-negative fields, the seconds fields below 100, are
equal as strings only if their fields are equal. -/
theorem fields_of_timestamp (m1 s1 m2 s2 : Int) (hm1 : 0 ≤ m1) (hm2 : 0 ≤ m2)
    (hs1 : 0 ≤ s1) (hs2 : 0 ≤ s2) (hl1 : s1 < 100) (hl2 : s2 < 100)
    (h : fmt02d m1 ++ ":" ++ fmt02d s1 = fmt02d m2 ++ ":" ++ fmt02d s2) :
    m1 = m2 ∧ s1 = s2 := by
  have hd := congrArg String.data h
  simp only [String.data_append] at hd
  have e1 : (fmt02d s1).data.length = 2 := by
    rw [fmt02d_lt_100 s1 hs1 hl1]; rfl
  have e2 : (fmt02d s2).data.length = 2 := by
    rw [fmt02d_lt_100 s2 hs2 hl2]; rfl
  obtain ⟨hleft, hright⟩ := List.append_inj' hd (e1.trans e2.symm)
  obtain ⟨hmm, _⟩ := List.append_inj' hleft rfl
  exact ⟨fmt02d_injective m1 m2 hm1 hm2 (String.ext hmm),
    fmt02d_injective s1 s2 hs1 hs2 (String.ext hright)⟩

/-- C16: for non-negative clock values, the minutes field `MM` and the seconds
field `SS` that `digitalWrite` prints (on pin 3 and on pin 4) satisfy
`0 <= SS < 60` and `MM * 60 + SS = ms / 1000`; the printed timestamp determines
the elapsed whole seconds, and two clock values print the same timestamp exactly
when they lie in the same whole second. -/
theorem timestamp_whole_seconds (w : World) (level ms : Int) (hw : 0 ≤ w.mock_time)
    (hms : 0 ≤ ms) :
    ((digitalWrite 3 level w).stdout =
        w.stdout ++ ("time: " ++ timestamp w.mock_time ++ " Heat: "
          ++ (if level ≠ 0 then "ON" else "OFF")) ++ "\n" ∧
      (digitalWrite 4 level w).stdout =
        w.stdout ++ ("time: " ++ timestamp w.mock_time ++ " Fan: "
          ++ (if level ≠ 0 then "ON" else "OFF")) ++ "\n" ∧
      timestamp w.mock_time = fmt02d ((w.mock_time.tdiv 1000).tdiv 60) ++ ":"
        ++ fmt02d ((w.mock_time.tdiv 1000).tmod 60)) ∧
    (0 ≤ (w.mock_time.tdiv 1000).tmod 60 ∧
      (w.mock_time.tdiv 1000).tmod 60 < 60 ∧
      (w.mock_time.tdiv 1000).tdiv 60 * 60 + (w.mock_time.tdiv 1000).tmod 60
        = w.mock_time / 1000) ∧
    (timestamp w.mock_time = timestamp ms ↔ w.mock_time / 1000 = ms / 1000) := by
  have key : ∀ t : Int, 0 ≤ t →
      t.tdiv 1000 = t / 1000 ∧
      (t.tdiv 1000).tdiv 60 = t / 1000 / 60 ∧
      (t.tdiv 1000).tmod 60 = t / 1000 % 60 := by
    intro t ht
    have h1 : t.tdiv 1000 = t / 1000 := Int.tdiv_eq_ediv ht (by decide)
    have h2 : (0 : Int) ≤ t / 1000 := by omega
    rw [h1]
    exact ⟨rfl, Int.tdiv_eq_ediv h2 (by decide), Int.tmod_eq_emod h2 (by decide)⟩
  obtain ⟨_, a2, a3⟩ := key w.mock_time hw
  obtain ⟨_, b2, b3⟩ := key ms hms
  refine ⟨⟨digitalWrite_heater_stdout w level, digitalWrite_fan_stdout w level, rfl⟩,
    ⟨by omega, by omega, by omega⟩, ?_⟩
  constructor
  · intro h
    unfold timestamp at h
    rw [a2, a3, b2, b3] at h
    obtain ⟨e1, e2⟩ := fields_of_timestamp _ _ _ _ (by omega) (by omega) (by omega)
      (by omega) (by omega) (by omega) h
    omega
  · intro h
    unfold timestamp
    rw [a2, a3, b2, b3, h]

/-- C16 (witness): the clock values 65000 and 65999 lie in the same whole second
and print the same timestamp. -/
theorem timestamp_whole_seconds_witness :
    (0 : Int) ≤ ({ World.init with mock_time := 65000 } : World).mock_time ∧
    (0 : Int) ≤ 65999 ∧
    (timestamp ({ World.init with mock_time := 65000 } : World).mock_time = timestamp 65999 ↔
      ({ World.init with mock_time := 65000 } : World).mock_time / 1000 = 65999 / 1000) :=
  ⟨by decide, by decide,
    (timestamp_whole_seconds { World.init with mock_time := 65000 } 1 65999
      (by decide) (by decide)).2.2⟩

/-! ## Repeated writes -/

/-- C17: for every state and level, and for pin 3 as for pin 4, a second
`digitalWrite(pin, level)` right after the first leaves the clock, the heater
flag, the fan flag and the switch as the first call left them, yet prints the
same line a second time: standard output grows by one line at every write,
whether or not the flag's value changes. -/
theorem digitalWrite_twice (w : World) (level : Int) :
    ((digitalWrite 3 level (digitalWrite 3 level w)).mock_time
        = (digitalWrite 3 level w).mock_time ∧
      (digitalWrite 3 level (digitalWrite 3 level w)).mock_heater
        = (digitalWrite 3 level w).mock_heater ∧
      (digitalWrite 3 level (digitalWrite 3 level w)).mock_fan
        = (digitalWrite 3 level w).mock_fan ∧
      (digitalWrite 3 level (digitalWrite 3 level w)).mock_switch
        = (digitalWrite 3 level w).mock_switch ∧
      ∃ line : String, '\n' ∉ line.data ∧
        (digitalWrite 3 level w).stdout = w.stdout ++ line ++ "\n" ∧
        (digitalWrite 3 level (digitalWrite 3 level w)).stdout
          = w.stdout ++ line ++ "\n" ++ line ++ "\n" ∧
        (digitalWrite 3 level (digitalWrite 3 level w)).stdout
          ≠ (digitalWrite 3 level w).stdout) ∧
    ((digitalWrite 4 level (digitalWrite 4 level w)).mock_time
        = (digitalWrite 4 level w).mock_time ∧
      (digitalWrite 4 level (digitalWrite 4 level w)).mock_heater
        = (digitalWrite 4 level w).mock_heater ∧
      (digitalWrite 4 level (digitalWrite 4 level w)).mock_fan
        = (digitalWrite 4 level w).mock_fan ∧
      (digitalWrite 4 level (digitalWrite 4 level w)).mock_switch
        = (digitalWrite 4 level w).mock_switch ∧
      ∃ line : String, '\n' ∉ line.data ∧
        (digitalWrite 4 level w).stdout = w.stdout ++ line ++ "\n" ∧
        (digitalWrite 4 level (digitalWrite 4 level w)).stdout
          = w.stdout ++ line ++ "\n" ++ line ++ "\n" ∧
        (digitalWrite 4 level (digitalWrite 4 level w)).stdout
          ≠ (digitalWrite 4 level w).stdout) := by
  have grow : ∀ (x line : String), x ++ line ++ "\n" ≠ x := by
    intro x line h
    have := congrArg String.length h
    simp only [String.length_append] at this
    have h1 : ("\n" : String).length = 1 := rfl
    omega
  have t3 : (digitalWrite 3 level w).mock_time = w.mock_time := by simp [digitalWrite]
  have t4 : (digitalWrite 4 level w).mock_time = w.mock_time := by simp [digitalWrite]
  refine ⟨⟨by simp [digitalWrite], by simp [digitalWrite], by simp [digitalWrite],
      by simp [digitalWrite], _, actuator_line_no_newline w.mock_time level " Heat: "
        (by decide), digitalWrite_heater_stdout w level, ?_, ?_⟩,
    ⟨by simp [digitalWrite], by simp [digitalWrite], by simp [digitalWrite],
      by simp [digitalWrite], _, actuator_line_no_newline w.mock_time level " Fan: "
        (by decide), digitalWrite_fan_stdout w level, ?_, ?_⟩⟩
  · rw [digitalWrite_heater_stdout (digitalWrite 3 level w) level, t3,
      digitalWrite_heater_stdout w level]
  · rw [digitalWrite_heater_stdout (digitalWrite 3 level w) level]
    exact grow _ _
  · rw [digitalWrite_fan_stdout (digitalWrite 4 level w) level, t4,
      digitalWrite_fan_stdout w level]
  · rw [digitalWrite_fan_stdout (digitalWrite 4 level w) level]
    exact grow _ _

/-! ## The clock counts humidity reads -/

theorem totalAdvance_eq (cs : List Call) :
    totalAdvance cs = 250 * (humidityCalls cs : Int) + delaySum cs := by
  induction cs with
  | nil => simp [totalAdvance, humidityCalls, delaySum]
  | cons c cs ih =>
    cases c <;> simp only [totalAdvance, humidityCalls, delaySum, Call.advance, ih] <;>
      push_cast <;> omega

/-- One call that addresses an existing sensor, from a state whose clock is an
`int`: if the advance it asks for is non-negative and fits below `INT_MAX`, the
clock grows by exactly that advance. -/
theorem step_clock_exact {fp : FloatModel} (s : Sys fp) (c : Call)
    (hs : isInt s.world.mock_time) (h0 : 0 ≤ c.advance)
    (hfit : s.world.mock_time + c.advance ≤ INT_MAX) (ha : c.addressed s.sensors.length) :
    (step s c).world.mock_time = s.world.mock_time + c.advance := by
  have hw : ∀ x : Int, 0 ≤ x → s.world.mock_time + x ≤ INT_MAX →
      wrapInt (s.world.mock_time + x) = s.world.mock_time + x := by
    intro x hx hx'
    apply wrapInt_of_isInt
    unfold isInt at hs ⊢
    omega
  cases c with
  | delay time =>
    simp only [Call.advance] at h0 hfit
    simp only [step, delay, Call.advance, hw time h0 hfit]
  | dhtReadHumidity i =>
    simp only [Call.advance] at h0 hfit
    simp only [Call.addressed] at ha
    simp only [step]
    cases hget : s.sensors.get? i with
    | none =>
      have := List.get?_eq_none.mp hget
      omega
    | some d => simp only [DHT.readHumidity, Call.advance, hw 250 h0 hfit]
  | dhtReadTemperature i =>
    simp only [step]
    cases hget : s.sensors.get? i <;> simp [DHT.readTemperature, Call.advance]
  | dhtBegin i =>
    simp only [step]
    cases hget : s.sensors.get? i <;> simp [DHT.begin, Call.advance]
  | digitalWrite pin on_ =>
    simp only [step, digitalWrite, Call.advance]
    split
    · simp
    · split <;> simp
  | _ =>
    simp [step, millis, wdt_enable, wdt_reset, digitalRead, pinMode, LiquidCrystal_I2C.new,
      LiquidCrystal_I2C.begin, LiquidCrystal_I2C.home, LiquidCrystal_I2C.backlight,
      LiquidCrystal_I2C.print, LiquidCrystal_I2C.setCursor, Call.advance]

theorem run_clock_exact {fp : FloatModel} (cs : List Call) : ∀ (s : Sys fp),
    isInt s.world.mock_time → delaysNonneg cs → sensorsExist s cs →
    s.world.mock_time + totalAdvance cs ≤ INT_MAX →
    (run s cs).world.mock_time = s.world.mock_time + totalAdvance cs := by
  induction cs with
  | nil => intro s _ _ _ _; simp [run, totalAdvance]
  | cons c cs ih =>
    intro s hs hd hv hfit
    have h1 : 0 ≤ c.advance :=
      advance_nonneg c (fun t e => hd t (by rw [e]; exact List.mem_cons_self _ _))
    have hd' : delaysNonneg cs := fun t ht => hd t (List.mem_cons_of_mem _ ht)
    have h2 : 0 ≤ totalAdvance cs := totalAdvance_nonneg cs hd'
    simp only [totalAdvance] at hfit
    obtain ⟨a1, _, _⟩ := step_clock s c hs h1 (by omega)
    have a2 := step_clock_exact s c hs h1 (by omega) hv.1
    have b := ih (step s c) a1 hd' hv.2 (by omega)
    simp only [run, totalAdvance]
    omega

/-- C18: the clock is shared by all sensors and counts humidity reads.  Start in
any state whose clock value `t` is an `int`, with any sensors, and make any
sequence of calls in which every sensor method is called on an existing sensor,
every `delay` argument is non-negative, there are `n` calls of `readHumidity` (on
whichever sensors) and the `delay` arguments sum to `d`, with
`t + 250 * n + d <= INT_MAX` (no overflow).  Then the run ends with
`millis() = t + 250 * n + d`, however the calls are interleaved with each other
and with the other operations. -/
theorem clock_counts_reads (fp : FloatModel) (s : Sys fp) (cs : List Call)
    (hs : isInt s.world.mock_time) (hd : delaysNonneg cs) (hv : sensorsExist s cs)
    (hfit : (millis s.world).1 + 250 * (humidityCalls cs : Int) + delaySum cs ≤ INT_MAX) :
    (millis (run s cs).world).1
      = (millis s.world).1 + 250 * (humidityCalls cs : Int) + delaySum cs := by
  have e := totalAdvance_eq cs
  simp only [millis] at hfit ⊢
  rw [run_clock_exact cs s hs hd hv (by omega)]
  omega

/-- C18 (witness): two sensors, three humidity reads and delays of 1000 and 500
interleaved with other calls end at `0 + 250 * 3 + 1500 = 2250`. -/
theorem clock_counts_reads_witness :
    isInt (Sys.init FloatModel.exact).world.mock_time ∧
    humidityCalls [Call.dhtNew 7 1, Call.dhtNew 8 1, Call.dhtReadHumidity 0, Call.delay 1000,
      Call.digitalWrite 3 1, Call.dhtReadHumidity 1, Call.dhtReadTemperature 0,
      Call.delay 500, Call.dhtReadHumidity 0] = 3 ∧
    delaySum [Call.dhtNew 7 1, Call.dhtNew 8 1, Call.dhtReadHumidity 0, Call.delay 1000,
      Call.digitalWrite 3 1, Call.dhtReadHumidity 1, Call.dhtReadTemperature 0,
      Call.delay 500, Call.dhtReadHumidity 0] = 1500 ∧
    (millis (run (Sys.init FloatModel.exact)
      [Call.dhtNew 7 1, Call.dhtNew 8 1, Call.dhtReadHumidity 0, Call.delay 1000,
        Call.digitalWrite 3 1, Call.dhtReadHumidity 1, Call.dhtReadTemperature 0,
        Call.delay 500, Call.dhtReadHumidity 0]).world).1 = 2250 := by
  have hd : delaysNonneg [Call.dhtNew 7 1, Call.dhtNew 8 1, Call.dhtReadHumidity 0,
      Call.delay 1000, Call.digitalWrite 3 1, Call.dhtReadHumidity 1,
      Call.dhtReadTemperature 0, Call.delay 500, Call.dhtReadHumidity 0] := by
    intro time h
    simp at h
    omega
  have hv : sensorsExist (Sys.init FloatModel.exact) [Call.dhtNew 7 1, Call.dhtNew 8 1,
      Call.dhtReadHumidity 0, Call.delay 1000, Call.digitalWrite 3 1, Call.dhtReadHumidity 1,
      Call.dhtReadTemperature 0, Call.delay 500, Call.dhtReadHumidity 0] := by
    simp [sensorsExist, Call.addressed, step, Sys.init, DHT.readHumidity, DHT.readTemperature]
  have h := clock_counts_reads FloatModel.exact (Sys.init FloatModel.exact) _
    (by decide) hd hv (by decide)
  exact ⟨by decide, by decide, by decide, h.trans (by decide)⟩

end Dryer
